import Mathlib

/-!
Shallow embedding of `src/fmt_layer.rs` from the `subscriber` repository:
a `tracing` layer that renders each event as one line
`[<elapsed .6> <LEVEL>](<span chain>)(<module>): <message>` and routes it to
stderr (ERROR/WARN) or stdout (everything else).

Modelling conventions:
* Severity levels and output channels are closed inductive types.
* An event carries its metadata (level, optional module path) and the list of
  named fields in visiting order; each field's value is represented by its
  debug-formatted text (the result of Rust's `format!("{:?}", value)`), which
  is the only use the code makes of a value.
* The span scope is the list of span names in the order `ctx.scope()` yields
  them (outer to inner).
* `Instant` readings are natural numbers of microseconds on the monotonic
  clock; `Duration::as_secs_f64` followed by `{:.6}` formatting is modelled at
  microsecond granularity by `formatSecs6` (integer seconds, a dot, six
  zero-padded fractional digits).
* The fallible `writeln!(...).unwrap()` is modelled by `on_event_io`, which
  records the list of attempted writes and propagates a write failure as
  `Except.error` (the panic of `unwrap`).
-/

namespace Subscriber

/-- The five `tracing::Level` severities. -/
inductive Level where
  | error
  | warn
  | info
  | debug
  | trace
deriving DecidableEq

/-- The two standard streams an event can be routed to. -/
inductive Channel where
  | out
  | err
deriving DecidableEq

/-- `StandardOutput::new` (fmt_layer.rs lines 28-33): ERROR and WARN pick the
stderr variant, every other level picks the stdout variant. -/
def StandardOutput.new : Level → Channel
  | .error => .err
  | .warn => .err
  | _ => .out

/-- One named event field; `debugValue` is the debug-formatted text of its
value, the only observation `record_debug` makes of it. -/
structure Field where
  name : String
  debugValue : String
deriving DecidableEq

/-- The slice of `tracing` metadata the layer reads: the level and the
optional module path. -/
structure Metadata where
  level : Level
  module_path : Option String
deriving DecidableEq

/-- An event: its metadata plus its named fields in visiting order. -/
structure Event where
  metadata : Metadata
  fields : List Field
deriving DecidableEq

/-- The visitor state of `FmtEventVisitor` (fmt_layer.rs lines 8-11): just the
captured message string. -/
structure FmtEventVisitor where
  message : String
deriving DecidableEq

/-- `FmtEventVisitor::default()`: the empty message. -/
def FmtEventVisitor.default : FmtEventVisitor := { message := "" }

/-- `FmtEventVisitor::record_debug` (fmt_layer.rs lines 14-19): a field named
`message` replaces the stored message with its debug-formatted value; any
other field leaves the state unchanged. -/
def FmtEventVisitor.record_debug (v : FmtEventVisitor) (field : Field) :
    FmtEventVisitor :=
  if field.name = "message" then { v with message := field.debugValue } else v

/-- `event.record(&mut visitor)`: fold the visitor over the fields in order. -/
def Event.record (e : Event) (v : FmtEventVisitor) : FmtEventVisitor :=
  e.fields.foldl FmtEventVisitor.record_debug v

/-- One iteration of the span-string loop (fmt_layer.rs lines 71-76): push
`" | "` only when the accumulated string is non-empty, then push the name.
(`span_string.is_empty()` is the test `span_string = ""`.) -/
def spanFold (span_string : String) (name : String) : String :=
  (if span_string = "" then span_string else span_string ++ " | ") ++ name

/-- The whole span-string loop over `ctx.scope()` (fmt_layer.rs lines 70-76),
starting from `String::new()`. -/
def buildSpanString (scope : List String) : String :=
  scope.foldl spanFold ""

/-- The level label match (fmt_layer.rs lines 79-85). -/
def levelLabel : Level → String
  | .error => "ERROR"
  | .warn => "WARN"
  | .info => "INFO"
  | .debug => "DEBUG"
  | .trace => "TRACE"

/-- `now - self.start` (fmt_layer.rs line 65) on microsecond monotonic-clock
readings. -/
def elapsedMicros (start now : Nat) : Nat := now - start

/-- Decimal digit characters of `n`, most significant first (`"0"` for 0). -/
def natDigitChars (n : Nat) : List Char :=
  if n = 0 then ['0']
  else ((Nat.digits 10 n).map fun d => Char.ofNat (48 + d)).reverse

/-- Left-pad a character list with `'0'` to length `k`. -/
def padLeftZeros (k : Nat) (s : List Char) : List Char :=
  List.replicate (k - s.length) '0' ++ s

/-- The printed elapsed seconds: `{:.6}` applied to `as_secs_f64()`, modelled
at microsecond granularity — integer seconds, `'.'`, six zero-padded
fractional digits. -/
def formatSecs6 (micros : Nat) : String :=
  ⟨natDigitChars (micros / 1000000) ++
    '.' :: padLeftZeros 6 (natDigitChars (micros % 1000000))⟩

/-- The `writeln!` format string `"[{:.6} {}]({})({}): {}"` plus the trailing
newline (fmt_layer.rs lines 92-100). -/
def renderLine (elapsed : Nat) (level : Level)
    (span_string modulePath message : String) : String :=
  "[" ++ formatSecs6 elapsed ++ " " ++ levelLabel level ++ "](" ++
    span_string ++ ")(" ++ modulePath ++ "): " ++ message ++ "\n"

/-- `FmtLayer::on_event` (fmt_layer.rs lines 63-102) up to the write: from the
formatter's start reading, the captured `now` reading, the event and the span
scope, compute the chosen channel and the rendered line. -/
def on_event (start now : Nat) (event : Event) (scope : List String) :
    Channel × String :=
  let time := elapsedMicros start now
  let visitor := event.record FmtEventVisitor.default
  let span_string := buildSpanString scope
  let modulePath := event.metadata.module_path.getD "no module"
  let output := StandardOutput.new event.metadata.level
  (output, renderLine time event.metadata.level span_string modulePath
    visitor.message)

/-- `FmtLayer::on_event` including the final `writeln!(...).unwrap()`: given
the behaviour of the two streams as a `write` function, return the list of
write calls attempted and the outcome of the dispatch — `Except.error`
(the `unwrap` panic aborting the call) exactly when the single write fails. -/
def on_event_io (start now : Nat) (event : Event) (scope : List String)
    (write : Channel → String → Except String Unit) :
    List (Channel × String) × Except String Unit :=
  let result := on_event start now event scope
  ([result],
    match write result.1 result.2 with
    | .ok _ => .ok ()
    | .error e => .error e)

/-- Modelled from the spec: the span-chain segment the spec describes — "the
frame names joined with the literal separator `\" | \"`". -/
def joinSep : List String → String
  | [] => ""
  | [n] => n
  | n :: rest@(_ :: _) => n ++ " | " ++ joinSep rest

/-- The separator `" | "` as characters. -/
def sepChars : List Char := [' ', '|', ' ']

/-- Number of positions at which `pat` occurs as a substring (occurrences may
overlap). -/
def countOccs (pat : List Char) : List Char → Nat
  | [] => 0
  | c :: t => (if pat.isPrefixOf (c :: t) then 1 else 0) + countOccs pat t

/-- The debug value of the last field named `message`, or `""` if none: the
value `Event.record` extracts. -/
def lastMessageValue (fields : List Field) : String :=
  ((fields.filter fun f => f.name = "message").map Field.debugValue).getLastD ""

/-! ### Helper lemmas -/

theorem record_debug_of_ne (v : FmtEventVisitor) (f : Field)
    (h : f.name ≠ "message") : v.record_debug f = v := by
  simp [FmtEventVisitor.record_debug, h]

theorem foldl_record_message (fields : List Field) (v : FmtEventVisitor) :
    (fields.foldl FmtEventVisitor.record_debug v).message =
      ((fields.filter fun f => f.name = "message").map
        Field.debugValue).getLastD v.message := by
  induction fields generalizing v with
  | nil => rfl
  | cons f t ih =>
    rw [List.foldl_cons]
    by_cases h : f.name = "message"
    · rw [show FmtEventVisitor.record_debug v f = { message := f.debugValue }
        from by simp [FmtEventVisitor.record_debug, h]]
      rw [ih]
      rw [show (f :: t).filter (fun g => g.name = "message") =
          f :: t.filter (fun g => g.name = "message") from by simp [h]]
      rw [List.map_cons, List.getLastD_cons]
    · rw [record_debug_of_ne v f h, ih]
      rw [show (f :: t).filter (fun g => g.name = "message") =
          t.filter (fun g => g.name = "message") from by simp [h]]

theorem record_message_eq (e : Event) :
    (e.record FmtEventVisitor.default).message = lastMessageValue e.fields := by
  simp [Event.record, foldl_record_message, lastMessageValue,
    FmtEventVisitor.default]

theorem on_event_eq (start now : Nat) (event : Event) (scope : List String) :
    on_event start now event scope =
      (StandardOutput.new event.metadata.level,
        renderLine (elapsedMicros start now) event.metadata.level
          (buildSpanString scope) (event.metadata.module_path.getD "no module")
          (lastMessageValue event.fields)) := by
  simp [on_event, record_message_eq]

/-! ### Claim theorems -/

/-- Claim C1: for every event, `on_event` writes exactly one newline-terminated
line in the fixed layout `[%.6f %s](%s)(%s): %s\n`, whose five fields are, in
order, the elapsed seconds with 6 decimal digits, the severity label (one of
"ERROR", "WARN", "INFO", "DEBUG", "TRACE" matching the event's level), the span
chain, the module (or "no module"), and the message. -/
theorem claim_C1 (start now : Nat) (event : Event) (scope : List String)
    (write : Channel → String → Except String Unit) :
    (on_event_io start now event scope write).1 =
      [(StandardOutput.new event.metadata.level,
        "[" ++ formatSecs6 (elapsedMicros start now) ++ " " ++
          levelLabel event.metadata.level ++ "](" ++ buildSpanString scope ++
          ")(" ++ event.metadata.module_path.getD "no module" ++ "): " ++
          lastMessageValue event.fields ++ "\n")] ∧
    (∀ p ∈ (on_event_io start now event scope write).1,
      ∃ pre : String, p.2 = pre ++ "\n") ∧
    (levelLabel event.metadata.level = "ERROR" ↔
      event.metadata.level = Level.error) ∧
    (levelLabel event.metadata.level = "WARN" ↔
      event.metadata.level = Level.warn) ∧
    (levelLabel event.metadata.level = "INFO" ↔
      event.metadata.level = Level.info) ∧
    (levelLabel event.metadata.level = "DEBUG" ↔
      event.metadata.level = Level.debug) ∧
    (levelLabel event.metadata.level = "TRACE" ↔
      event.metadata.level = Level.trace) := by
  constructor
  · simp [on_event_io, on_event_eq, renderLine]
  constructor
  · intro p hp
    simp only [on_event_io, List.mem_singleton] at hp
    rw [hp, on_event_eq]
    exact ⟨_, rfl⟩
  · cases event.metadata.level <;> simp [levelLabel]

/-- Claim C2: the line goes to stderr iff the level is ERROR or WARN, and to
stdout iff the level is INFO, DEBUG or TRACE. -/
theorem claim_C2 (start now : Nat) (event : Event) (scope : List String) :
    ((on_event start now event scope).1 = Channel.err ↔
      (event.metadata.level = Level.error ∨
        event.metadata.level = Level.warn)) ∧
    ((on_event start now event scope).1 = Channel.out ↔
      (event.metadata.level = Level.info ∨ event.metadata.level = Level.debug ∨
        event.metadata.level = Level.trace)) := by
  obtain ⟨⟨lvl, mp⟩, fs⟩ := event
  cases lvl <;> simp [on_event_eq, StandardOutput.new]

/-- Claim C6: when the module path is absent the module segment of the
rendered line is the literal string "no module", and the dispatch still
succeeds (absence is not an error). -/
theorem claim_C6 (start now : Nat) (event : Event) (scope : List String)
    (h : event.metadata.module_path = none) :
    (on_event start now event scope).2 =
      renderLine (elapsedMicros start now) event.metadata.level
        (buildSpanString scope) "no module" (lastMessageValue event.fields) ∧
    (on_event_io start now event scope fun _ _ => Except.ok ()).2 =
      Except.ok () := by
  constructor
  · rw [on_event_eq]
    simp [h]
  · simp [on_event_io]

/-- A concrete event without a module path, used by witnesses. -/
def evNoModule : Event :=
  { metadata := { level := Level.debug, module_path := none }, fields := [] }

/-- Witness for C6 at a concrete event with no module path. -/
theorem claim_C6_witness :
    (on_event 0 5 evNoModule []).2 =
      renderLine (elapsedMicros 0 5) evNoModule.metadata.level
        (buildSpanString []) "no module" (lastMessageValue evNoModule.fields) ∧
    (on_event_io 0 5 evNoModule [] fun _ _ => Except.ok ()).2 =
      Except.ok () :=
  claim_C6 0 5 evNoModule [] rfl

/-- Claim C7: if the single write to the chosen channel fails, that failure is
fatal to the dispatch call — exactly one write is attempted (no retry, no
fallback channel) and the error is propagated, not swallowed. -/
theorem claim_C7 (start now : Nat) (event : Event) (scope : List String)
    (write : Channel → String → Except String Unit) (e : String)
    (hfail : write (on_event start now event scope).1
      (on_event start now event scope).2 = Except.error e) :
    (on_event_io start now event scope write).1 =
      [on_event start now event scope] ∧
    (on_event_io start now event scope write).2 = Except.error e := by
  constructor
  · rfl
  · simp only [on_event_io]
    rw [hfail]

/-- Witness for C7 with a write function that always fails. -/
theorem claim_C7_witness :
    (on_event_io 0 5 evNoModule [] fun _ _ => Except.error "broken pipe").1 =
      [on_event 0 5 evNoModule []] ∧
    (on_event_io 0 5 evNoModule [] fun _ _ => Except.error "broken pipe").2 =
      Except.error "broken pipe" :=
  claim_C7 0 5 evNoModule [] (fun _ _ => Except.error "broken pipe")
    "broken pipe" rfl

/-- Claim C3: if the event carries a (single) field named `message`, the
message segment of the rendered line is that field's debug-formatted value,
whatever other fields are present; with no field named `message` the message
segment is empty. -/
theorem claim_C3 (start now : Nat) (event : Event) (scope : List String) :
    (∀ f : Field,
      (event.fields.filter fun g => g.name = "message") = [f] →
      (on_event start now event scope).2 =
        renderLine (elapsedMicros start now) event.metadata.level
          (buildSpanString scope)
          (event.metadata.module_path.getD "no module") f.debugValue) ∧
    ((∀ g ∈ event.fields, g.name ≠ "message") →
      (on_event start now event scope).2 =
        renderLine (elapsedMicros start now) event.metadata.level
          (buildSpanString scope)
          (event.metadata.module_path.getD "no module") "") := by
  constructor
  · intro f hf
    rw [on_event_eq]
    simp [lastMessageValue, hf]
  · intro hnone
    rw [on_event_eq]
    have hfil : (event.fields.filter fun g => g.name = "message") = [] := by
      simp only [List.filter_eq_nil_iff]
      intro g hg
      simpa using hnone g hg
    simp [lastMessageValue, hfil]

/-- A concrete event with one `message` field and one other field, used by
witnesses. -/
def evMessage : Event :=
  { metadata := { level := Level.info, module_path := some "app::server" },
    fields := [{ name := "count", debugValue := "3" },
               { name := "message", debugValue := "\"started\"" }] }

/-- Witness for C3 at a concrete event carrying a `message` field and another
field. -/
theorem claim_C3_witness :
    (on_event 0 1500000 evMessage ["request"]).2 =
      renderLine (elapsedMicros 0 1500000) evMessage.metadata.level
        (buildSpanString ["request"])
        (evMessage.metadata.module_path.getD "no module") "\"started\"" :=
  (claim_C3 0 1500000 evMessage ["request"]).1
    { name := "message", debugValue := "\"started\"" } (by decide)

/-- Claim C10: with several fields named `message`, the last one visited wins —
the extracted message is always the debug value of the last `message` field,
and appending a further `message` field overwrites whatever was captured
before. -/
theorem claim_C10 (mdata : Metadata) (l : List Field) (f : Field)
    (h : f.name = "message") :
    (∀ e : Event,
      (e.record FmtEventVisitor.default).message = lastMessageValue e.fields) ∧
    (Event.record { metadata := mdata, fields := l ++ [f] }
      FmtEventVisitor.default).message = f.debugValue := by
  refine ⟨fun e => record_message_eq e, ?_⟩
  rw [record_message_eq]
  simp [lastMessageValue, h]

/-- Witness for C10: two `message` fields, the second value is kept. -/
theorem claim_C10_witness :
    (∀ e : Event,
      (e.record FmtEventVisitor.default).message = lastMessageValue e.fields) ∧
    (Event.record
      { metadata := { level := Level.info, module_path := none },
        fields := [{ name := "message", debugValue := "\"first\"" }] ++
          [{ name := "message", debugValue := "\"second\"" }] }
      FmtEventVisitor.default).message = "\"second\"" :=
  claim_C10 { level := Level.info, module_path := none }
    [{ name := "message", debugValue := "\"first\"" }]
    { name := "message", debugValue := "\"second\"" } rfl

/-- Claim C8: field extraction is total and effect-free beyond the message
string — a field not named `message` leaves the visitor unchanged wherever it
occurs, and the final visitor state is exactly the record of the last
`message` value. -/
theorem claim_C8 (v : FmtEventVisitor) (mdata : Metadata)
    (l1 l2 : List Field) (f : Field) (h : f.name ≠ "message") :
    v.record_debug f = v ∧
    (Event.record { metadata := mdata, fields := l1 ++ f :: l2 }
        FmtEventVisitor.default) =
      (Event.record { metadata := mdata, fields := l1 ++ l2 }
        FmtEventVisitor.default) ∧
    (∀ e : Event,
      e.record FmtEventVisitor.default =
        { message := lastMessageValue e.fields }) := by
  refine ⟨record_debug_of_ne v f h, ?_, fun e => ?_⟩
  · simp only [Event.record, List.foldl_append, List.foldl_cons]
    rw [record_debug_of_ne _ f h]
  · have := record_message_eq e
    cases hrec : e.record FmtEventVisitor.default
    rw [hrec] at this
    simpa using this

/-- Witness for C8 with a concrete non-`message` field. -/
theorem claim_C8_witness :
    FmtEventVisitor.record_debug { message := "m" }
      { name := "count", debugValue := "3" } = { message := "m" } ∧
    (Event.record
      { metadata := { level := Level.info, module_path := none },
        fields := [] ++ { name := "count", debugValue := "3" } ::
          [{ name := "message", debugValue := "\"hi\"" }] }
      FmtEventVisitor.default) =
      (Event.record
        { metadata := { level := Level.info, module_path := none },
          fields := [] ++ [{ name := "message", debugValue := "\"hi\"" }] }
        FmtEventVisitor.default) ∧
    (∀ e : Event,
      e.record FmtEventVisitor.default =
        { message := lastMessageValue e.fields }) :=
  claim_C8 { message := "m" } { level := Level.info, module_path := none }
    [] [{ name := "message", debugValue := "\"hi\"" }]
    { name := "count", debugValue := "3" } (by decide)

/-- Process a batch of events: each input is the `now` reading, the event and
the span scope; the formatter contributes only its start reading. -/
def processEvents (start : Nat) (inputs : List (Nat × Event × List String)) :
    List (Channel × String) :=
  inputs.map fun i => on_event start i.1 i.2.1 i.2.2

/-- Claim C9: the rendered line is a deterministic function of the event, the
start timestamp, the scope snapshot and the captured now — equal inputs give
equal lines — and over a batch the i-th output depends only on the i-th input
(no state is carried between events). -/
theorem claim_C9 (start now : Nat) (e1 e2 : Event)
    (s1 s2 : List String) (he : e1 = e2) (hs : s1 = s2) :
    on_event start now e1 s1 = on_event start now e2 s2 ∧
    ∀ (inputs1 inputs2 : List (Nat × Event × List String)) (i : Nat),
      inputs1[i]? = inputs2[i]? →
      (processEvents start inputs1)[i]? = (processEvents start inputs2)[i]? := by
  subst he hs
  refine ⟨rfl, fun inputs1 inputs2 i h => ?_⟩
  simp [processEvents, List.getElem?_map, h]

/-- Witness for C9 at concrete equal inputs. -/
theorem claim_C9_witness :
    on_event 0 5 evMessage ["request"] = on_event 0 5 evMessage ["request"] ∧
    ∀ (inputs1 inputs2 : List (Nat × Event × List String)) (i : Nat),
      inputs1[i]? = inputs2[i]? →
      (processEvents 0 inputs1)[i]? = (processEvents 0 inputs2)[i]? :=
  claim_C9 0 5 evMessage evMessage ["request"] ["request"] rfl rfl

theorem natDigitChars_isDigit (n : Nat) :
    ∀ c ∈ natDigitChars n, c.isDigit = true := by
  intro c hc
  by_cases h0 : n = 0
  · simp [natDigitChars, h0] at hc
    subst hc
    decide
  · simp only [natDigitChars, h0, if_false, List.mem_reverse, List.mem_map]
      at hc
    obtain ⟨d, hd, rfl⟩ := hc
    have hlt : d < 10 := Nat.digits_lt_base (by norm_num) hd
    interval_cases d <;> decide

theorem natDigitChars_length_le (n k : Nat) (hk : 0 < k) (h : n < 10 ^ k) :
    (natDigitChars n).length ≤ k := by
  by_cases h0 : n = 0
  · simp [natDigitChars, h0]
    omega
  · simp only [natDigitChars, h0, if_false, List.length_reverse,
      List.length_map]
    rw [Nat.digits_len 10 n (by norm_num) h0]
    have := Nat.log_lt_of_lt_pow h0 h
    omega

theorem padLeftZeros_length (s : List Char) (h : s.length ≤ 6) :
    (padLeftZeros 6 s).length = 6 := by
  simp [padLeftZeros]
  omega

theorem padLeftZeros_isDigit (s : List Char)
    (hs : ∀ c ∈ s, c.isDigit = true) :
    ∀ c ∈ padLeftZeros 6 s, c.isDigit = true := by
  intro c hc
  rcases List.mem_append.mp hc with h | h
  · rw [List.eq_of_mem_replicate h]
    decide
  · exact hs c h

theorem formatSecs6_shape (m : Nat) :
    ∃ intPart frac : List Char,
      (formatSecs6 m).data = intPart ++ '.' :: frac ∧ frac.length = 6 ∧
      (∀ c ∈ intPart, c.isDigit = true) ∧ ∀ c ∈ frac, c.isDigit = true := by
  refine ⟨natDigitChars (m / 1000000),
    padLeftZeros 6 (natDigitChars (m % 1000000)), rfl, ?_,
    natDigitChars_isDigit _, padLeftZeros_isDigit _ (natDigitChars_isDigit _)⟩
  apply padLeftZeros_length
  apply natDigitChars_length_le _ 6 (by norm_num)
  have hm : m % 1000000 < 1000000 := Nat.mod_lt _ (by norm_num)
  calc m % 1000000 < 1000000 := hm
    _ ≤ 10 ^ 6 := by norm_num

/-- Claim C5: the printed elapsed time is `now - start` with the start
captured at construction, is never negative, is monotone over successive
events of the same instance, and is rendered with exactly six digits (and
nothing else) after the unique decimal point. -/
theorem claim_C5 (start now1 now2 : Nat) (h1 : start ≤ now1)
    (h12 : now1 ≤ now2) :
    (elapsedMicros start now1 : Int) = (now1 : Int) - (start : Int) ∧
    0 ≤ elapsedMicros start now1 ∧
    elapsedMicros start now1 ≤ elapsedMicros start now2 ∧
    (∀ (event : Event) (scope : List String),
      (on_event start now1 event scope).2 =
        renderLine (elapsedMicros start now1) event.metadata.level
          (buildSpanString scope)
          (event.metadata.module_path.getD "no module")
          (lastMessageValue event.fields)) ∧
    ∃ intPart frac : List Char,
      (formatSecs6 (elapsedMicros start now1)).data = intPart ++ '.' :: frac ∧
      frac.length = 6 ∧ (∀ c ∈ intPart, c.isDigit = true) ∧
      ∀ c ∈ frac, c.isDigit = true := by
  refine ⟨?_, Nat.zero_le _, Nat.sub_le_sub_right h12 start,
    fun event scope => by rw [on_event_eq], formatSecs6_shape _⟩
  unfold elapsedMicros
  omega

/-- Witness for C5 at concrete clock readings 0 ≤ 3 ≤ 5. -/
theorem claim_C5_witness :
    (elapsedMicros 0 3 : Int) = (3 : Int) - (0 : Int) ∧
    0 ≤ elapsedMicros 0 3 ∧
    elapsedMicros 0 3 ≤ elapsedMicros 0 5 ∧
    (∀ (event : Event) (scope : List String),
      (on_event 0 3 event scope).2 =
        renderLine (elapsedMicros 0 3) event.metadata.level
          (buildSpanString scope)
          (event.metadata.module_path.getD "no module")
          (lastMessageValue event.fields)) ∧
    ∃ intPart frac : List Char,
      (formatSecs6 (elapsedMicros 0 3)).data = intPart ++ '.' :: frac ∧
      frac.length = 6 ∧ (∀ c ∈ intPart, c.isDigit = true) ∧
      ∀ c ∈ frac, c.isDigit = true :=
  claim_C5 0 3 5 (by decide) (by decide)

/-- The tail of a separator-joined string: `" | "` before each name. -/
def joinTail : List String → String
  | [] => ""
  | n :: t => " | " ++ n ++ joinTail t

theorem append_sep_ne (a n : String) : a ++ " | " ++ n ≠ "" := by
  intro h
  have hd := congrArg String.data h
  simp [String.data_append] at hd

theorem foldl_spanFold_ne (l : List String) :
    ∀ acc : String, acc ≠ "" → l.foldl spanFold acc = acc ++ joinTail l := by
  induction l with
  | nil =>
    intro acc _
    simp [joinTail]
  | cons n t ih =>
    intro acc h
    have hsf : spanFold acc n = acc ++ " | " ++ n := by simp [spanFold, h]
    rw [List.foldl_cons, hsf, ih _ (append_sep_ne acc n)]
    simp [joinTail, String.append_assoc]

theorem joinSep_nil : joinSep [] = "" := by
  simp [joinSep]

theorem joinSep_one (n : String) : joinSep [n] = n := by
  simp [joinSep]

theorem joinSep_cons2 (n m : String) (t : List String) :
    joinSep (n :: m :: t) = n ++ " | " ++ joinSep (m :: t) := by
  simp [joinSep]

theorem joinSep_cons (n : String) (l : List String) :
    joinSep (n :: l) = n ++ joinTail l := by
  induction l generalizing n with
  | nil => simp [joinSep_one, joinTail]
  | cons m t ih =>
    rw [joinSep_cons2, ih]
    simp [joinTail, String.append_assoc]

theorem buildSpanString_eq_joinSep (names : List String)
    (hne : ∀ n ∈ names, n ≠ "") : buildSpanString names = joinSep names := by
  cases names with
  | nil => simp [buildSpanString, joinSep_nil]
  | cons n t =>
    unfold buildSpanString
    rw [List.foldl_cons, show spanFold "" n = n from by simp [spanFold],
      foldl_spanFold_ne t n (hne n (by simp)), joinSep_cons]

theorem mem_of_isPrefixOf {l₁ l₂ : List Char}
    (h : l₁.isPrefixOf l₂ = true) {c : Char} (hc : c ∈ l₁) : c ∈ l₂ :=
  (List.isPrefixOf_iff_prefix.mp h).subset hc

theorem countOccs_eq_zero (s : List Char) (h : '|' ∉ s) :
    countOccs sepChars s = 0 := by
  induction s with
  | nil => rfl
  | cons c t ih =>
    have hp : sepChars.isPrefixOf (c :: t) = false := by
      by_contra hcon
      exact h (mem_of_isPrefixOf (eq_true_of_ne_false hcon) (by decide))
    have ht : '|' ∉ t := fun hm => h (List.mem_cons_of_mem c hm)
    simp [countOccs, hp, ih ht]

theorem countOccs_cons (pat : List Char) (c : Char) (t : List Char) :
    countOccs pat (c :: t) =
      (if pat.isPrefixOf (c :: t) then 1 else 0) + countOccs pat t := rfl

theorem countOccs_sep_append (x : List Char) (c : Char) (t : List Char)
    (hx : '|' ∉ x) (hc : c ≠ '|') :
    countOccs sepChars (x ++ sepChars ++ (c :: t)) =
      1 + countOccs sepChars (c :: t) := by
  induction x with
  | nil =>
    show countOccs sepChars (' ' :: '|' :: ' ' :: c :: t) = _
    have h0 : sepChars.isPrefixOf (' ' :: '|' :: ' ' :: c :: t) = true := by
      simp [sepChars, List.isPrefixOf]
    have h1 : sepChars.isPrefixOf ('|' :: ' ' :: c :: t) = false := by
      simp [sepChars, List.isPrefixOf]
    have h2 : sepChars.isPrefixOf (' ' :: c :: t) = false := by
      have hne : ('|' == c) = false := beq_eq_false_iff_ne.mpr (Ne.symm hc)
      simp [sepChars, List.isPrefixOf, hne]
    rw [countOccs_cons sepChars ' ' ('|' :: ' ' :: c :: t),
      countOccs_cons sepChars '|' (' ' :: c :: t),
      countOccs_cons sepChars ' ' (c :: t), h0, h1, h2]
    simp
  | cons a x' ih =>
    have ha : '|' ∉ x' := fun hm => hx (List.mem_cons_of_mem a hm)
    have hhead :
        sepChars.isPrefixOf (a :: (x' ++ sepChars ++ (c :: t))) = false := by
      cases x' with
      | nil => simp [List.isPrefixOf, sepChars]
      | cons b x'' =>
        have hb : ('|' == b) = false := by
          refine beq_eq_false_iff_ne.mpr (Ne.symm ?_)
          exact fun h => hx (by simp [h])
        show sepChars.isPrefixOf
          (a :: ((b :: x'') ++ sepChars ++ (c :: t))) = false
        simp [List.isPrefixOf, sepChars, hb]
    show countOccs sepChars (a :: (x' ++ sepChars ++ (c :: t))) = _
    rw [countOccs_cons sepChars a (x' ++ sepChars ++ (c :: t)), hhead, ih ha]
    simp

theorem string_data_ne_nil (s : String) (h : s ≠ "") : s.data ≠ [] :=
  fun hd => h (String.ext (hd.trans rfl))

theorem joinSep_data_cons (m : String) (t : List String) (hm : m ≠ "") :
    ∃ (c : Char) (rest : List Char),
      (joinSep (m :: t)).data = c :: rest ∧ c ∈ m.data := by
  obtain ⟨c, rest', hm'⟩ :=
    List.exists_cons_of_ne_nil (string_data_ne_nil m hm)
  refine ⟨c, rest' ++ (joinTail t).data, ?_, by simp [hm']⟩
  rw [joinSep_cons]
  simp [String.data_append, hm']

theorem countOccs_joinSep :
    ∀ names : List String, (∀ n ∈ names, n ≠ "") →
      (∀ n ∈ names, '|' ∉ n.data) → names ≠ [] →
      countOccs sepChars (joinSep names).data = names.length - 1 := by
  intro names
  induction names with
  | nil => intro _ _ h0; exact absurd rfl h0
  | cons n t ih =>
    intro hne hp _
    cases t with
    | nil =>
      rw [joinSep_one, countOccs_eq_zero n.data (hp n (by simp))]
      simp
    | cons m t' =>
      rw [joinSep_cons2]
      have hdata : (n ++ " | " ++ joinSep (m :: t')).data =
          n.data ++ sepChars ++ (joinSep (m :: t')).data := by
        simp [String.data_append, sepChars]
      obtain ⟨c, rest, hJ, hcm⟩ := joinSep_data_cons m t' (hne m (by simp))
      have hc : c ≠ '|' := fun h => (hp m (by simp)) (h ▸ hcm)
      rw [hdata, hJ,
        countOccs_sep_append n.data c rest (hp n (by simp)) hc, ← hJ,
        ih (fun a ha => hne a (List.mem_cons_of_mem n ha))
          (fun a ha => hp a (List.mem_cons_of_mem n ha)) (by simp)]
      simp
      omega

/-- Claim C4 (amended): for a stack whose frame names are all non-empty and
free of the `'|'` character, the span-chain segment is the names joined with
`" | "` and contains exactly N − 1 occurrences of `" | "`; the empty stack
gives the empty segment. -/
theorem claim_C4 (names : List String) (hne : ∀ n ∈ names, n ≠ "")
    (hp : ∀ n ∈ names, '|' ∉ n.data) :
    buildSpanString names = joinSep names ∧
    (names ≠ [] →
      countOccs sepChars (buildSpanString names).data = names.length - 1) ∧
    (names = [] → buildSpanString names = "") := by
  refine ⟨buildSpanString_eq_joinSep names hne, fun h0 => ?_,
    fun h => by subst h; rfl⟩
  rw [buildSpanString_eq_joinSep names hne]
  exact countOccs_joinSep names hne hp h0

/-- Counterexample to Claim C4 as stated: with an empty frame name the code
emits no separator, so the segment is neither the `" | "`-join of the names
nor does it contain N − 1 occurrences of `" | "`. -/
theorem claim_C4_counterexample :
    buildSpanString ["", "b"] ≠ joinSep ["", "b"] ∧
    countOccs sepChars (buildSpanString ["", "b"]).data ≠
      (["", "b"] : List String).length - 1 := by
  have h1 : buildSpanString ["", "b"] = "b" := by decide
  have h2 : joinSep ["", "b"] = " | b" := by
    rw [joinSep_cons2, joinSep_one]
    decide
  rw [h1, h2]
  exact ⟨by decide, by decide⟩

/-- Witness for the amended C4 at a concrete two-frame stack. -/
theorem claim_C4_witness :
    buildSpanString ["request", "handler"] = joinSep ["request", "handler"] ∧
    ((["request", "handler"] : List String) ≠ [] →
      countOccs sepChars (buildSpanString ["request", "handler"]).data =
        (["request", "handler"] : List String).length - 1) ∧
    ((["request", "handler"] : List String) = [] →
      buildSpanString ["request", "handler"] = "") :=
  claim_C4 ["request", "handler"] (by decide) (by decide)

end Subscriber
